import Mathlib

/-!
Shallow embedding of the clustering pipeline in
`src/services/textSimilarityService.ts` (text-similarity clustering worker):
cosine-similarity matrix construction, constrained greedy clustering,
cluster labeling, result preparation, corpus sampling and the worker's
stage/cancellation control flow, together with theorems settling the
specification claims about them.

Modelling conventions:
* IEEE doubles are modelled by exact rationals; `NaN`/`±Infinity` arising
  from division by zero are modelled explicitly by `JSVal`.
* `Math.sqrt` is modelled by `Rat.sqrt`, which agrees with the real square
  root on zeroness and sign — the only facts about `Math.sqrt` used below.
* Randomness (simulated embedding vectors, the shuffle used for sampling)
  is injected as an explicit argument.
-/

namespace CsdsPre

/-- JavaScript number results relevant to this embedding: a finite value
(an exact rational), `NaN`, `Infinity`, or `-Infinity`. -/
inductive JSVal where
  | val (q : ℚ)
  | nan
  | inf
  | ninf
deriving DecidableEq

/-- JavaScript division `x / y` on finite operands: a finite quotient when
`y ≠ 0`, `NaN` for `0 / 0`, and `±Infinity` for `x / 0` with `x ≠ 0`. -/
def jsDiv (x y : ℚ) : JSVal :=
  if y = 0 then (if x = 0 then JSVal.nan else if 0 < x then JSVal.inf else JSVal.ninf)
  else JSVal.val (x / y)

/-- JavaScript comparison `a >= t` for a finite threshold `t`: `false`
whenever `a` is `NaN` (every comparison with `NaN` is false in JS). -/
def jsGe (a : JSVal) (t : ℚ) : Bool :=
  match a with
  | JSVal.val q => decide (t ≤ q)
  | JSVal.inf => true
  | _ => false

/-- Embeds `cosineSimilarity` (textSimilarityService.ts lines 433-448): the
loop accumulates the dot product and the two sums of squares over the
equal-length vectors produced by the embedding stage, takes square roots,
and divides. There is no guard on a zero denominator. -/
def cosineSimilarity (a b : List ℚ) : JSVal :=
  let dotProduct := (List.zipWith (fun x y => x * y) a b).sum
  let aMagnitude := Rat.sqrt ((a.map (fun x => x * x)).sum)
  let bMagnitude := Rat.sqrt ((b.map (fun x => x * x)).sum)
  jsDiv dotProduct (aMagnitude * bMagnitude)

/-- Embeds `computeSimilarityMatrix` (lines 388-430): the diagonal is fixed
at 1; each unordered pair `(i, j)` with `i < j` is computed once by
`cosineSimilarity` and stored symmetrically at `(i, j)` and `(j, i)`. -/
def computeSimilarityMatrix (embeddingVectors : List (List ℚ)) : List (List JSVal) :=
  let n := embeddingVectors.length
  (List.range n).map (fun i => (List.range n).map (fun j =>
    if i = j then JSVal.val 1
    else if i < j then
      cosineSimilarity (embeddingVectors.getD i []) (embeddingVectors.getD j [])
    else
      cosineSimilarity (embeddingVectors.getD j []) (embeddingVectors.getD i [])))

/-- Rationals: a list whose squares sum to zero is all zeros. -/
lemma eq_zero_of_sum_sq_eq_zero {l : List ℚ} (h : (l.map (fun x => x * x)).sum = 0) :
    ∀ x ∈ l, x = 0 := by
  induction l with
  | nil => intro x hx; cases hx
  | cons a t ih =>
    have ht : 0 ≤ (t.map (fun x => x * x)).sum := by
      apply List.sum_nonneg
      intro x hx
      simp only [List.mem_map] at hx
      obtain ⟨y, _, rfl⟩ := hx
      exact mul_self_nonneg y
    have ha : 0 ≤ a * a := mul_self_nonneg a
    simp only [List.map_cons, List.sum_cons] at h
    have ha0 : a * a = 0 := by linarith
    have ht0 : (t.map (fun x => x * x)).sum = 0 := by linarith
    intro x hx
    rcases List.mem_cons.mp hx with rfl | hx
    · exact mul_self_eq_zero.mp ha0
    · exact ih ht0 x hx

/-- If every element of `a` is zero then the JS dot-product loop yields 0. -/
lemma zipWith_mul_sum_eq_zero_left {a b : List ℚ} (h : ∀ x ∈ a, x = 0) :
    (List.zipWith (fun x y => x * y) a b).sum = 0 := by
  induction a generalizing b with
  | nil => simp
  | cons x t ih =>
    cases b with
    | nil => simp
    | cons y s =>
      have hx : x = 0 := h x (List.mem_cons_self x t)
      have ht : ∀ z ∈ t, z = 0 := fun z hz => h z (List.mem_cons_of_mem x hz)
      simp [hx, ih ht]

/-- If every element of `b` is zero then the JS dot-product loop yields 0. -/
lemma zipWith_mul_sum_eq_zero_right {a b : List ℚ} (h : ∀ x ∈ b, x = 0) :
    (List.zipWith (fun x y => x * y) a b).sum = 0 := by
  induction b generalizing a with
  | nil => simp
  | cons y s ih =>
    cases a with
    | nil => simp
    | cons x t =>
      have hy : y = 0 := h y (List.mem_cons_self y s)
      have hs : ∀ z ∈ s, z = 0 := fun z hz => h z (List.mem_cons_of_mem y hz)
      simp [hy, ih hs]

/-- Square root of zero, for `Rat.sqrt` which models `Math.sqrt`. -/
lemma rat_sqrt_zero : Rat.sqrt 0 = 0 := by
  have h := Rat.sqrt_eq (0 : ℚ)
  rw [mul_zero, abs_zero] at h
  exact h

/-- If the first vector has zero magnitude, `cosineSimilarity` returns `NaN`. -/
lemma cosineSimilarity_nan_left {a b : List ℚ}
    (h : (a.map (fun x => x * x)).sum = 0) : cosineSimilarity a b = JSVal.nan := by
  have hz : ∀ x ∈ a, x = 0 := eq_zero_of_sum_sq_eq_zero h
  have hdot : (List.zipWith (fun x y => x * y) a b).sum = 0 :=
    zipWith_mul_sum_eq_zero_left hz
  unfold cosineSimilarity
  rw [h, hdot, rat_sqrt_zero]
  simp [jsDiv]

/-- If the second vector has zero magnitude, `cosineSimilarity` returns `NaN`. -/
lemma cosineSimilarity_nan_right {a b : List ℚ}
    (h : (b.map (fun x => x * x)).sum = 0) : cosineSimilarity a b = JSVal.nan := by
  have hz : ∀ x ∈ b, x = 0 := eq_zero_of_sum_sq_eq_zero h
  have hdot : (List.zipWith (fun x y => x * y) a b).sum = 0 :=
    zipWith_mul_sum_eq_zero_right hz
  unfold cosineSimilarity
  rw [h, hdot, rat_sqrt_zero]
  simp [jsDiv]

/-- C1 (counterexample): on the concrete embedding list `[[0,0],[1,1]]`, whose
first vector has zero magnitude, `computeSimilarityMatrix` stores `NaN` —
not `0` — at the off-diagonal entries: the claimed NaN-to-0 guard does not
exist in the code. -/
theorem c1_counterexample :
    computeSimilarityMatrix [[0, 0], [1, 1]] =
      [[JSVal.val 1, JSVal.nan], [JSVal.nan, JSVal.val 1]] ∧
    JSVal.nan ≠ JSVal.val 0 := by
  have hc : cosineSimilarity [(0 : ℚ), 0] [1, 1] = JSVal.nan := by
    apply cosineSimilarity_nan_left
    norm_num
  refine ⟨?_, by simp⟩
  simp [computeSimilarityMatrix, List.range_succ, hc]

/-- C1 (amended): whenever one of the two vectors has zero magnitude (its sum
of squares is 0), `cosineSimilarity` evaluates `0 / 0` and returns `NaN`,
which is stored as-is; the only mitigation is downstream and implicit — a
`NaN` entry never satisfies the `>= threshold` comparison, so such a pair is
never merged. -/
theorem c1_amended (a b : List ℚ)
    (h : (a.map (fun x => x * x)).sum = 0 ∨ (b.map (fun x => x * x)).sum = 0) :
    cosineSimilarity a b = JSVal.nan ∧ ∀ t : ℚ, jsGe (cosineSimilarity a b) t = false := by
  have hmain : cosineSimilarity a b = JSVal.nan := by
    rcases h with h | h
    · exact cosineSimilarity_nan_left h
    · exact cosineSimilarity_nan_right h
  exact ⟨hmain, fun t => by rw [hmain]; rfl⟩

/-- C1 witness: the amended statement instantiated at the zero vector `[0,0]`
against `[1,1]`. -/
theorem c1_witness :
    ((([0, 0] : List ℚ).map (fun x => x * x)).sum = 0) ∧
    cosineSimilarity [0, 0] [1, 1] = JSVal.nan :=
  ⟨by norm_num, (c1_amended [0, 0] [1, 1] (Or.inl (by norm_num))).1⟩

/-! ## Constrained clustering engine (`performClustering`, lines 451-546) -/

/-- Candidate merge record pushed by the pair-enumeration loop
(lines 462-472): the two indices and the matrix entry for the pair. -/
structure MergeCand where
  i : ℕ
  j : ℕ
  similarity : JSVal
deriving DecidableEq

/-- Embeds the candidate enumeration (lines 462-472): for each `i < n` the
inner loop runs `j` from `i + 1` to `n - 1` (rendered as `List.range'`) and
keeps the pairs passing `similarityMatrix[i][j] >= threshold`. -/
def buildMerges (similarityMatrix : List (List JSVal)) (threshold : ℚ) : List MergeCand :=
  let n := similarityMatrix.length
  (List.range n).flatMap (fun i =>
    (List.range' (i + 1) (n - (i + 1))).filterMap (fun j =>
      if jsGe ((similarityMatrix.getD i []).getD j (JSVal.val 0)) threshold
      then some ⟨i, j, (similarityMatrix.getD i []).getD j (JSVal.val 0)⟩
      else none))

/-- Sort order of `merges.sort((a, b) => b.similarity - a.similarity)`
(line 475): descending by similarity. On the finite values that
threshold-filtered candidates carry this is exactly the ES2019 sort
comparator; `NaN` never passes `jsGe`, so its placement (ordered last
here) is immaterial to any run. -/
def jsSortKeyLe (a b : JSVal) : Bool :=
  match a, b with
  | JSVal.inf, _ => true
  | _, JSVal.inf => false
  | JSVal.val p, JSVal.val q => decide (q ≤ p)
  | JSVal.val _, _ => true
  | _, JSVal.val _ => false
  | JSVal.ninf, _ => true
  | JSVal.nan, JSVal.ninf => false
  | JSVal.nan, JSVal.nan => true

/-- Embeds the sort at line 475. JavaScript's `Array.prototype.sort` is
required to be stable since ES2019, so a stable merge sort renders it. -/
def sortMerges (merges : List MergeCand) : List MergeCand :=
  merges.mergeSort (fun a b => jsSortKeyLe a.similarity b.similarity)

/-- State of the merge loop: the cluster arena (`clusters`) and the
item-to-cluster map (`clusterMap`, the JS `Map` with keys `0..n-1`
rendered positionally). -/
structure ClusterState where
  clusters : List (List ℕ)
  clusterMap : List ℕ
deriving DecidableEq

/-- Initial state (lines 455 and 478-481): one singleton cluster per item and
the identity cluster map. -/
def initState (n : ℕ) : ClusterState :=
  ⟨(List.range n).map (fun i => [i]), List.range n⟩

/-- Embeds lines 503-514 for distinct resolved clusters `clusterI ≠ clusterJ`:
`mergeInto` is the larger of the two (`clusterI` on ties), `mergeFrom` the
other; the absorbed members are re-pointed to `mergeInto`, the absorbed
cluster's members are appended to the absorbing cluster and its own slot is
emptied. The two branches spell out the source's
`mergeInto = |Ci| >= |Cj| ? clusterI : clusterJ` selection. -/
def mergeClusters (st : ClusterState) (clusterI clusterJ : ℕ) : ClusterState :=
  if (st.clusters.getD clusterJ []).length ≤ (st.clusters.getD clusterI []).length then
    { clusters := (st.clusters.set clusterI
        ((st.clusters.getD clusterI []) ++ (st.clusters.getD clusterJ []))).set clusterJ [],
      clusterMap := (st.clusters.getD clusterJ []).foldl
        (fun m idx => m.set idx clusterI) st.clusterMap }
  else
    { clusters := (st.clusters.set clusterJ
        ((st.clusters.getD clusterJ []) ++ (st.clusters.getD clusterI []))).set clusterI [],
      clusterMap := (st.clusters.getD clusterI []).foldl
        (fun m idx => m.set idx clusterJ) st.clusterMap }

/-- Embeds one iteration of the merge loop (lines 487-532): resolve the two
current clusters, skip when they coincide, skip (permanently — the candidate
is consumed) when the merged size would exceed the cap, otherwise merge. -/
def mergeStep (maxClusterSize : ℕ) (st : ClusterState) (cand : MergeCand) : ClusterState :=
  if st.clusterMap.getD cand.i 0 = st.clusterMap.getD cand.j 0 then st
  else if maxClusterSize <
      (st.clusters.getD (st.clusterMap.getD cand.i 0) []).length +
      (st.clusters.getD (st.clusterMap.getD cand.j 0) []).length then st
  else
    mergeClusters st (st.clusterMap.getD cand.i 0) (st.clusterMap.getD cand.j 0)

/-- Embeds `performClustering` up to (and including) the pruning of empty
clusters (lines 451-535): the member-index lists of the returned clusters. -/
def clusterIndices (similarityMatrix : List (List JSVal)) (threshold : ℚ)
    (maxClusterSize : ℕ) : List (List ℕ) :=
  let merges := sortMerges (buildMerges similarityMatrix threshold)
  let final := merges.foldl (mergeStep maxClusterSize) (initState similarityMatrix.length)
  final.clusters.filter (fun c => !c.isEmpty)

/-- A cluster in `performClustering`'s return format (lines 537-543). -/
structure RawCluster where
  id : ℕ
  texts : List String
  representativeText : String
deriving DecidableEq

/-- Embeds the final format conversion of `performClustering` (lines 534-545):
ids assigned by position in the pruned list, member indices mapped to their
texts, the first member's text as representative. -/
def performClustering (texts : List String) (similarityMatrix : List (List JSVal))
    (threshold : ℚ) (maxClusterSize : ℕ) : List RawCluster :=
  (clusterIndices similarityMatrix threshold maxClusterSize).enum.map
    (fun p => ⟨p.1, p.2.map (fun idx => texts.getD idx ""), texts.getD (p.2.headD 0) ""⟩)

/-! ## Helper lemmas about `List.set` and `List.getD` -/

/-- Value of `getD` after `set` at the written (in-range) index. -/
lemma getD_set_self {α : Type} (l : List α) (i : ℕ) (x d : α) (h : i < l.length) :
    (l.set i x).getD i d = x := by
  induction l generalizing i with
  | nil => cases h
  | cons a t ih =>
    cases i with
    | zero => rfl
    | succ i => exact ih i (Nat.lt_of_succ_lt_succ h)

/-- Value of `getD` after `set` at a different index. -/
lemma getD_set_of_ne {α : Type} (l : List α) {i j : ℕ} (x d : α) (h : i ≠ j) :
    (l.set i x).getD j d = l.getD j d := by
  induction l generalizing i j with
  | nil => rfl
  | cons a t ih =>
    cases i with
    | zero =>
      cases j with
      | zero => exact absurd rfl h
      | succ j => rfl
    | succ i =>
      cases j with
      | zero => rfl
      | succ j => exact ih (fun hc => h (congrArg Nat.succ hc))

/-- Out-of-range `getD` is the default. -/
lemma getD_eq_default_of_le {α : Type} (l : List α) (d : α) {i : ℕ} (h : l.length ≤ i) :
    l.getD i d = d := by
  induction l generalizing i with
  | nil => rfl
  | cons a t ih =>
    cases i with
    | zero => cases h
    | succ i => exact ih (Nat.le_of_succ_le_succ h)

/-- An in-range `getD` is a member of the list. -/
lemma getD_mem_of_lt {α : Type} (l : List α) (d : α) {i : ℕ} (h : i < l.length) :
    l.getD i d ∈ l := by
  rw [List.getD_eq_getElem l d h]
  exact List.getElem_mem h

/-- Writing the cluster map for every absorbed member preserves its length. -/
lemma foldl_set_length {α : Type} (v : α) (idxs : List ℕ) (m : List α) :
    (idxs.foldl (fun acc idx => acc.set idx v) m).length = m.length := by
  induction idxs generalizing m with
  | nil => rfl
  | cons a t ih => rw [List.foldl_cons, ih (m.set a v), List.length_set]

/-- Every value in the cluster map after the re-pointing fold is either an old
value or the written value. -/
lemma mem_foldl_set {α : Type} (v : α) (idxs : List ℕ) (m : List α) :
    ∀ x ∈ idxs.foldl (fun acc idx => acc.set idx v) m, x ∈ m ∨ x = v := by
  induction idxs generalizing m with
  | nil => exact fun x hx => Or.inl hx
  | cons a t ih =>
    intro x hx
    rcases ih (m.set a v) x hx with hm | hv
    · rcases List.mem_or_eq_of_mem_set hm with hm' | hv'
      · exact Or.inl hm'
      · exact Or.inr hv'
    · exact Or.inr hv

/-! ## Well-formedness and content of the merge-loop state -/

/-- Well-formedness of the merge-loop state over `n` items: the cluster arena
and the item map have `n` slots and every map value points into the arena. -/
def StateWf (n : ℕ) (st : ClusterState) : Prop :=
  st.clusters.length = n ∧ st.clusterMap.length = n ∧ ∀ v ∈ st.clusterMap, v < n

/-- Multiset of all item indices currently held by the cluster arena. -/
def clustersContent (l : List (List ℕ)) : Multiset ℕ :=
  (l.map (fun c => (c : Multiset ℕ))).sum

lemma clustersContent_cons (c : List ℕ) (t : List (List ℕ)) :
    clustersContent (c :: t) = (c : Multiset ℕ) + clustersContent t := rfl

lemma getD_cons_zero' {α : Type} (c : α) (t : List α) (d : α) : (c :: t).getD 0 d = c := rfl

lemma getD_cons_succ' {α : Type} (c : α) (t : List α) (i : ℕ) (d : α) :
    (c :: t).getD (i + 1) d = t.getD i d := rfl

lemma clustersContent_set (l : List (List ℕ)) (i : ℕ) (x : List ℕ) (h : i < l.length) :
    clustersContent (l.set i x) + (l.getD i [] : Multiset ℕ) =
      clustersContent l + (x : Multiset ℕ) := by
  induction l generalizing i with
  | nil => cases h
  | cons c t ih =>
    cases i with
    | zero =>
      show clustersContent (x :: t) + _ = _
      rw [getD_cons_zero', clustersContent_cons, clustersContent_cons]
      abel
    | succ i =>
      have hstep := ih i (Nat.lt_of_succ_lt_succ h)
      show clustersContent (c :: t.set i x) + _ = _
      rw [getD_cons_succ', clustersContent_cons, clustersContent_cons,
        add_assoc, add_assoc]
      exact congrArg (fun z => (c : Multiset ℕ) + z) hstep

lemma clustersContent_map_singleton (l : List ℕ) :
    clustersContent (l.map (fun i => [i])) = (l : Multiset ℕ) := by
  induction l with
  | nil => rfl
  | cons a t ih =>
    rw [List.map_cons, clustersContent_cons, ih]
    simp

lemma clustersContent_filter_nonempty (l : List (List ℕ)) :
    clustersContent (l.filter (fun c => !c.isEmpty)) = clustersContent l := by
  induction l with
  | nil => rfl
  | cons c t ih =>
    cases c with
    | nil =>
      rw [List.filter_cons]
      simp only [List.isEmpty_nil, Bool.not_true, if_false, Bool.false_eq_true]
      rw [clustersContent_cons, ih]
      simp
    | cons a s =>
      rw [List.filter_cons]
      simp only [List.isEmpty_cons, Bool.not_false, if_true]
      rw [clustersContent_cons, clustersContent_cons, ih]

lemma coe_flatten_eq_content (l : List (List ℕ)) :
    ((l.flatten : List ℕ) : Multiset ℕ) = clustersContent l := by
  induction l with
  | nil => rfl
  | cons c t ih =>
    rw [List.flatten_cons, clustersContent_cons, ← ih, ← Multiset.coe_add]

/-- Core of the merge: moving `mergeFrom`'s members into `mergeInto`'s slot and
emptying `mergeFrom` preserves the arena's content. -/
lemma content_merge_core (cl : List (List ℕ)) (into fro : ℕ) (hne : into ≠ fro)
    (hi : into < cl.length) (hf : fro < cl.length) :
    clustersContent ((cl.set into (cl.getD into [] ++ cl.getD fro [])).set fro []) =
      clustersContent cl := by
  have h1 := clustersContent_set cl into (cl.getD into [] ++ cl.getD fro []) hi
  have hf1 : fro < (cl.set into (cl.getD into [] ++ cl.getD fro [])).length := by
    rw [List.length_set]; exact hf
  have h2 := clustersContent_set (cl.set into (cl.getD into [] ++ cl.getD fro [])) fro [] hf1
  rw [getD_set_of_ne cl _ _ hne] at h2
  have hco : ((cl.getD into [] ++ cl.getD fro [] : List ℕ) : Multiset ℕ) =
      (cl.getD into [] : Multiset ℕ) + (cl.getD fro [] : Multiset ℕ) :=
    (Multiset.coe_add _ _).symm
  rw [hco] at h1
  have h1' : clustersContent (cl.set into (cl.getD into [] ++ cl.getD fro [])) =
      clustersContent cl + (cl.getD fro [] : Multiset ℕ) := by
    have := h1
    rw [← add_assoc] at this
    exact add_right_cancel (by rw [this]; rw [add_right_comm])
  rw [h1'] at h2
  simp only [Multiset.coe_nil, add_zero] at h2
  exact add_right_cancel h2

lemma mergeClusters_content (st : ClusterState) (ci cj : ℕ) (hne : ci ≠ cj)
    (hi : ci < st.clusters.length) (hj : cj < st.clusters.length) :
    clustersContent (mergeClusters st ci cj).clusters = clustersContent st.clusters := by
  unfold mergeClusters
  by_cases hsz : (st.clusters.getD cj []).length ≤ (st.clusters.getD ci []).length
  · rw [if_pos hsz]
    exact content_merge_core st.clusters ci cj hne hi hj
  · rw [if_neg hsz]
    exact content_merge_core st.clusters cj ci (Ne.symm hne) hj hi

/-- A well-formed state resolves every item to an in-range cluster slot. -/
lemma map_getD_lt {n : ℕ} {st : ClusterState} (hwf : StateWf n st) (hn : n ≠ 0) (idx : ℕ) :
    st.clusterMap.getD idx 0 < n := by
  rcases Nat.lt_or_ge idx st.clusterMap.length with h | h
  · exact hwf.2.2 _ (getD_mem_of_lt _ _ h)
  · rw [getD_eq_default_of_le _ _ h]
    exact Nat.pos_of_ne_zero hn

/-- In the merge branch the two resolved clusters differ, so the state has a
positive number of slots. -/
lemma n_ne_zero_of_map_ne {n : ℕ} {st : ClusterState} (hwf : StateWf n st) {a b : ℕ}
    (hne : st.clusterMap.getD a 0 ≠ st.clusterMap.getD b 0) : n ≠ 0 := by
  intro hn
  subst hn
  have hlen : st.clusterMap.length = 0 := hwf.2.1
  have ha : st.clusterMap.getD a 0 = 0 := getD_eq_default_of_le _ _ (by omega)
  have hb : st.clusterMap.getD b 0 = 0 := getD_eq_default_of_le _ _ (by omega)
  exact hne (ha.trans hb.symm)

lemma mergeStep_content {n : ℕ} {st : ClusterState} (hwf : StateWf n st)
    (k : ℕ) (cand : MergeCand) :
    clustersContent (mergeStep k st cand).clusters = clustersContent st.clusters := by
  unfold mergeStep
  by_cases h1 : st.clusterMap.getD cand.i 0 = st.clusterMap.getD cand.j 0
  · rw [if_pos h1]
  · rw [if_neg h1]
    by_cases h2 : k <
        (st.clusters.getD (st.clusterMap.getD cand.i 0) []).length +
        (st.clusters.getD (st.clusterMap.getD cand.j 0) []).length
    · rw [if_pos h2]
    · rw [if_neg h2]
      have hn : n ≠ 0 := n_ne_zero_of_map_ne hwf h1
      have hi : st.clusterMap.getD cand.i 0 < st.clusters.length := by
        rw [hwf.1]; exact map_getD_lt hwf hn _
      have hj : st.clusterMap.getD cand.j 0 < st.clusters.length := by
        rw [hwf.1]; exact map_getD_lt hwf hn _
      exact mergeClusters_content st _ _ h1 hi hj

lemma mergeStep_wf {n : ℕ} {st : ClusterState} (hwf : StateWf n st)
    (k : ℕ) (cand : MergeCand) : StateWf n (mergeStep k st cand) := by
  unfold mergeStep
  by_cases h1 : st.clusterMap.getD cand.i 0 = st.clusterMap.getD cand.j 0
  · rw [if_pos h1]; exact hwf
  · rw [if_neg h1]
    by_cases h2 : k <
        (st.clusters.getD (st.clusterMap.getD cand.i 0) []).length +
        (st.clusters.getD (st.clusterMap.getD cand.j 0) []).length
    · rw [if_pos h2]; exact hwf
    · rw [if_neg h2]
      have hn : n ≠ 0 := n_ne_zero_of_map_ne hwf h1
      have hci : st.clusterMap.getD cand.i 0 < n := map_getD_lt hwf hn _
      have hcj : st.clusterMap.getD cand.j 0 < n := map_getD_lt hwf hn _
      unfold mergeClusters
      by_cases hsz : (st.clusters.getD (st.clusterMap.getD cand.j 0) []).length ≤
          (st.clusters.getD (st.clusterMap.getD cand.i 0) []).length
      · rw [if_pos hsz]
        refine ⟨by simp [List.length_set, hwf.1], by rw [foldl_set_length]; exact hwf.2.1, ?_⟩
        intro v hv
        rcases mem_foldl_set _ _ _ v hv with hold | hnew
        · exact hwf.2.2 v hold
        · rw [hnew]; exact hci
      · rw [if_neg hsz]
        refine ⟨by simp [List.length_set, hwf.1], by rw [foldl_set_length]; exact hwf.2.1, ?_⟩
        intro v hv
        rcases mem_foldl_set _ _ _ v hv with hold | hnew
        · exact hwf.2.2 v hold
        · rw [hnew]; exact hcj

/-- The size cap is preserved by a single merge attempt: a skipped candidate
changes nothing, a performed merge creates only the combined cluster (whose
size passed the cap test) and an emptied slot. -/
lemma mergeStep_sizeOk {st : ClusterState} {k : ℕ}
    (hall : ∀ c ∈ st.clusters, c.length ≤ k) (cand : MergeCand) :
    ∀ c ∈ (mergeStep k st cand).clusters, c.length ≤ k := by
  unfold mergeStep
  by_cases h1 : st.clusterMap.getD cand.i 0 = st.clusterMap.getD cand.j 0
  · rw [if_pos h1]; exact hall
  · rw [if_neg h1]
    by_cases h2 : k <
        (st.clusters.getD (st.clusterMap.getD cand.i 0) []).length +
        (st.clusters.getD (st.clusterMap.getD cand.j 0) []).length
    · rw [if_pos h2]; exact hall
    · rw [if_neg h2]
      have hsum := Nat.le_of_not_lt h2
      unfold mergeClusters
      by_cases hsz : (st.clusters.getD (st.clusterMap.getD cand.j 0) []).length ≤
          (st.clusters.getD (st.clusterMap.getD cand.i 0) []).length
      · rw [if_pos hsz]
        intro c hc
        rcases List.mem_or_eq_of_mem_set hc with hc1 | rfl
        · rcases List.mem_or_eq_of_mem_set hc1 with hc2 | rfl
          · exact hall c hc2
          · simpa using hsum
        · simp
      · rw [if_neg hsz]
        intro c hc
        rcases List.mem_or_eq_of_mem_set hc with hc1 | rfl
        · rcases List.mem_or_eq_of_mem_set hc1 with hc2 | rfl
          · exact hall c hc2
          · simp only [List.length_append]
            omega
        · simp

lemma foldl_mergeStep_wf {n : ℕ} {k : ℕ} (l : List MergeCand) {st : ClusterState}
    (hwf : StateWf n st) : StateWf n (l.foldl (mergeStep k) st) := by
  induction l generalizing st with
  | nil => exact hwf
  | cons p t ih => exact ih (mergeStep_wf hwf k p)

lemma foldl_mergeStep_content {n : ℕ} {k : ℕ} (l : List MergeCand) {st : ClusterState}
    (hwf : StateWf n st) :
    clustersContent (l.foldl (mergeStep k) st).clusters = clustersContent st.clusters := by
  induction l generalizing st with
  | nil => rfl
  | cons p t ih =>
    rw [List.foldl_cons, ih (mergeStep_wf hwf k p), mergeStep_content hwf k p]

lemma foldl_mergeStep_sizeOk {k : ℕ} (l : List MergeCand) {st : ClusterState}
    (hall : ∀ c ∈ st.clusters, c.length ≤ k) :
    ∀ c ∈ (l.foldl (mergeStep k) st).clusters, c.length ≤ k := by
  induction l generalizing st with
  | nil => exact hall
  | cons p t ih => exact ih (mergeStep_sizeOk hall p)

lemma initState_wf (n : ℕ) : StateWf n (initState n) := by
  refine ⟨by simp [initState], by simp [initState], ?_⟩
  intro v hv
  simp only [initState] at hv
  exact List.mem_range.mp hv

lemma initState_sizeOk {n k : ℕ} (hk : 1 ≤ k) :
    ∀ c ∈ (initState n).clusters, c.length ≤ k := by
  intro c hc
  simp only [initState, List.mem_map] at hc
  obtain ⟨i, _, rfl⟩ := hc
  simpa using hk

/-- The member-text lists of `performClustering`'s output are exactly the
pruned index clusters mapped through the corpus. -/
lemma performClustering_texts_map (texts : List String) (m : List (List JSVal))
    (t : ℚ) (k : ℕ) :
    (performClustering texts m t k).map (fun c => c.texts) =
      (clusterIndices m t k).map (fun c => c.map (fun idx => texts.getD idx "")) := by
  unfold performClustering
  rw [List.map_map]
  have hcomp : ((fun c : RawCluster => c.texts) ∘
      (fun p : ℕ × List ℕ =>
        (⟨p.1, p.2.map (fun idx => texts.getD idx ""),
          texts.getD (p.2.headD 0) ""⟩ : RawCluster))) =
      (fun c : List ℕ => c.map (fun idx => texts.getD idx "")) ∘ Prod.snd := rfl
  rw [hcomp, ← List.map_map, List.enum_map_snd]

/-- C5: the index clusters returned by `performClustering` partition the index
set `{0, …, n−1}` — their concatenation is a permutation of `range n` (no
index duplicated or dropped) — and the returned clusters' text lists are
exactly those index clusters read through the (possibly sampled) corpus. -/
theorem c5_partition (texts : List String) (m : List (List JSVal)) (t : ℚ) (k : ℕ) :
    ((clusterIndices m t k).flatten).Perm (List.range m.length) ∧
    (performClustering texts m t k).map (fun c => c.texts) =
      (clusterIndices m t k).map (fun c => c.map (fun idx => texts.getD idx "")) := by
  refine ⟨?_, performClustering_texts_map texts m t k⟩
  rw [← Multiset.coe_eq_coe, coe_flatten_eq_content]
  unfold clusterIndices
  rw [clustersContent_filter_nonempty,
    foldl_mergeStep_content _ (initState_wf m.length)]
  show clustersContent ((List.range m.length).map (fun i => [i])) = _
  rw [clustersContent_map_singleton]

/-- C4: with any `maxClusterSize ≥ 1`, after every individual merge step —
i.e. after processing any front segment of the sorted candidate list — every
cluster in the arena has at most `maxClusterSize` members, and in particular
every cluster returned by `performClustering` does. -/
theorem c4_size_cap (texts : List String) (m : List (List JSVal)) (t : ℚ) (k : ℕ)
    (hk : 1 ≤ k) :
    (∀ done rest, sortMerges (buildMerges m t) = done ++ rest →
      ∀ c ∈ (done.foldl (mergeStep k) (initState m.length)).clusters, c.length ≤ k) ∧
    (∀ cl ∈ performClustering texts m t k, cl.texts.length ≤ k) := by
  have hfold : ∀ l : List MergeCand,
      ∀ c ∈ (l.foldl (mergeStep k) (initState m.length)).clusters, c.length ≤ k :=
    fun l => foldl_mergeStep_sizeOk l (initState_sizeOk hk)
  constructor
  · intro done rest _
    exact hfold done
  · intro cl hcl
    have hmem : cl.texts ∈ (performClustering texts m t k).map (fun c => c.texts) :=
      List.mem_map_of_mem _ hcl
    rw [performClustering_texts_map] at hmem
    obtain ⟨c, hc, htexts⟩ := List.mem_map.mp hmem
    simp only [clusterIndices] at hc
    have hc' := (List.mem_filter.mp hc).1
    have hlen := hfold (sortMerges (buildMerges m t)) c hc'
    rw [← htexts, List.length_map]
    exact hlen

/-- C4 witness: the size-cap invariant instantiated on a concrete 2×2 matrix
with cap 2. -/
theorem c4_witness :
    (1 ≤ 2) ∧
    ∀ cl ∈ performClustering ["a", "b"]
      [[JSVal.val 1, JSVal.val 1], [JSVal.val 1, JSVal.val 1]] 0 2, cl.texts.length ≤ 2 :=
  ⟨by decide,
    (c4_size_cap ["a", "b"] [[JSVal.val 1, JSVal.val 1], [JSVal.val 1, JSVal.val 1]] 0 2
      (by decide)).2⟩

/-- C6: `performClustering` is deterministic — identical similarity matrix,
threshold and cap give identical output partitions (the embedding renders the
JS sort with a stable merge sort, the fixed tie-break ES2019 `Array.sort`
guarantees, so the whole computation is a pure function of its inputs). -/
theorem c6_deterministic (texts : List String) (m₁ m₂ : List (List JSVal))
    (t₁ t₂ : ℚ) (k₁ k₂ : ℕ) (hm : m₁ = m₂) (ht : t₁ = t₂) (hk : k₁ = k₂) :
    performClustering texts m₁ t₁ k₁ = performClustering texts m₂ t₂ k₂ := by
  rw [hm, ht, hk]

/-- C6 witness: determinism instantiated on a concrete matrix. -/
theorem c6_witness :
    performClustering ["a"] [[JSVal.val 1]] 1 3 = performClustering ["a"] [[JSVal.val 1]] 1 3 :=
  c6_deterministic ["a"] [[JSVal.val 1]] [[JSVal.val 1]] 1 1 3 3 rfl rfl rfl

/-! ## The merge policy (claim C8) -/

lemma jsSortKeyLe_trans (a b c : JSVal) (hab : jsSortKeyLe a b = true)
    (hbc : jsSortKeyLe b c = true) : jsSortKeyLe a c = true := by
  cases a <;> cases b <;> cases c <;>
    simp_all only [jsSortKeyLe, decide_eq_true_eq] <;>
    first
      | exact le_trans hbc hab
      | exact Bool.noConfusion hab
      | exact Bool.noConfusion hbc

lemma jsSortKeyLe_total (a b : JSVal) :
    (jsSortKeyLe a b || jsSortKeyLe b a) = true := by
  cases a <;> cases b <;>
    simp_all only [jsSortKeyLe, Bool.or_self, Bool.or_true, Bool.true_or,
      Bool.or_eq_true, decide_eq_true_eq]
  exact le_total _ _

/-- Membership in the candidate merge list: exactly the pairs `(i, j)` with
`i < j < n` whose matrix entry passes the threshold comparison, carrying that
entry as similarity. -/
lemma mem_buildMerges_iff (m : List (List JSVal)) (t : ℚ) (pi pj : ℕ) (ps : JSVal) :
    (⟨pi, pj, ps⟩ : MergeCand) ∈ buildMerges m t ↔
      pi < pj ∧ pj < m.length ∧
      jsGe ((m.getD pi []).getD pj (JSVal.val 0)) t = true ∧
      ps = (m.getD pi []).getD pj (JSVal.val 0) := by
  unfold buildMerges
  rw [List.mem_flatMap]
  constructor
  · rintro ⟨i, hi, hp⟩
    rw [List.mem_range] at hi
    rw [List.mem_filterMap] at hp
    obtain ⟨j, hj, hpj⟩ := hp
    rw [List.mem_range'_1] at hj
    by_cases hge : jsGe ((m.getD i []).getD j (JSVal.val 0)) t = true
    · rw [if_pos hge] at hpj
      have heq := Option.some.inj hpj
      obtain ⟨rfl, rfl, rfl⟩ : i = pi ∧ j = pj ∧
          (m.getD i []).getD j (JSVal.val 0) = ps := by
        refine ⟨congrArg MergeCand.i heq, congrArg MergeCand.j heq,
          congrArg MergeCand.similarity heq⟩
      exact ⟨by omega, by omega, hge, rfl⟩
    · rw [if_neg hge] at hpj
      cases hpj
  · rintro ⟨hij, hjn, hge, rfl⟩
    refine ⟨pi, List.mem_range.mpr (lt_trans hij hjn), ?_⟩
    rw [List.mem_filterMap]
    refine ⟨pj, ?_, ?_⟩
    · rw [List.mem_range'_1]
      constructor
      · omega
      · omega
    · rw [if_pos hge]

/-- C8: the merge policy of `performClustering`. (1) The candidate list holds
exactly the pairs `(i, j)`, `i < j`, whose entry passes the threshold, with
that entry as similarity; (2) sorting only permutes it; (3) the sorted list is
descending in similarity (under the fixed, deterministic JS comparator order);
(4) a processed candidate whose endpoints share a cluster leaves the state
unchanged; one whose merged size would exceed the cap leaves the state
unchanged (and, the loop being a single pass, is never reconsidered);
otherwise the smaller cluster is appended to the larger one (the absorbing
slot gets both member lists, the absorbed slot is emptied, others are
untouched). -/
theorem c8_merge_policy (m : List (List JSVal)) (t : ℚ) (k : ℕ) :
    (∀ pi pj ps, (⟨pi, pj, ps⟩ : MergeCand) ∈ buildMerges m t ↔
      pi < pj ∧ pj < m.length ∧
      jsGe ((m.getD pi []).getD pj (JSVal.val 0)) t = true ∧
      ps = (m.getD pi []).getD pj (JSVal.val 0)) ∧
    (sortMerges (buildMerges m t)).Perm (buildMerges m t) ∧
    List.Pairwise (fun a b => jsSortKeyLe a.similarity b.similarity = true)
      (sortMerges (buildMerges m t)) ∧
    (∀ (st : ClusterState) (cand : MergeCand),
      (st.clusterMap.getD cand.i 0 = st.clusterMap.getD cand.j 0 →
        mergeStep k st cand = st) ∧
      (st.clusterMap.getD cand.i 0 ≠ st.clusterMap.getD cand.j 0 →
        k < (st.clusters.getD (st.clusterMap.getD cand.i 0) []).length +
            (st.clusters.getD (st.clusterMap.getD cand.j 0) []).length →
        mergeStep k st cand = st) ∧
      (∀ ci cj, ci = st.clusterMap.getD cand.i 0 → cj = st.clusterMap.getD cand.j 0 →
        ci ≠ cj → ci < st.clusters.length → cj < st.clusters.length →
        (st.clusters.getD ci []).length + (st.clusters.getD cj []).length ≤ k →
        ((st.clusters.getD cj []).length ≤ (st.clusters.getD ci []).length →
          (mergeStep k st cand).clusters.getD ci [] =
            st.clusters.getD ci [] ++ st.clusters.getD cj [] ∧
          (mergeStep k st cand).clusters.getD cj [] = [] ∧
          ∀ c, c ≠ ci → c ≠ cj →
            (mergeStep k st cand).clusters.getD c [] = st.clusters.getD c []) ∧
        ((st.clusters.getD ci []).length < (st.clusters.getD cj []).length →
          (mergeStep k st cand).clusters.getD cj [] =
            st.clusters.getD cj [] ++ st.clusters.getD ci [] ∧
          (mergeStep k st cand).clusters.getD ci [] = [] ∧
          ∀ c, c ≠ ci → c ≠ cj →
            (mergeStep k st cand).clusters.getD c [] = st.clusters.getD c []))) := by
  refine ⟨fun pi pj ps => mem_buildMerges_iff m t pi pj ps,
    List.mergeSort_perm _ _,
    List.sorted_mergeSort
      (fun a b c => jsSortKeyLe_trans a.similarity b.similarity c.similarity)
      (fun a b => jsSortKeyLe_total a.similarity b.similarity) _,
    ?_⟩
  intro st cand
  refine ⟨fun heq => by rw [mergeStep, if_pos heq], fun hne hlt => by
    rw [mergeStep, if_neg hne, if_pos hlt], ?_⟩
  rintro ci cj rfl rfl hne hci hcj hsum
  have hstep : mergeStep k st cand =
      mergeClusters st (st.clusterMap.getD cand.i 0) (st.clusterMap.getD cand.j 0) := by
    rw [mergeStep, if_neg hne, if_neg (Nat.not_lt.mpr hsum)]
  constructor
  · intro hsz
    rw [hstep, mergeClusters, if_pos hsz]
    have hciS : st.clusterMap.getD cand.i 0 <
        (st.clusters.set (st.clusterMap.getD cand.i 0)
          ((st.clusters.getD (st.clusterMap.getD cand.i 0) []) ++
           (st.clusters.getD (st.clusterMap.getD cand.j 0) []))).length := by
      rw [List.length_set]; exact hci
    have hcjS : st.clusterMap.getD cand.j 0 <
        (st.clusters.set (st.clusterMap.getD cand.i 0)
          ((st.clusters.getD (st.clusterMap.getD cand.i 0) []) ++
           (st.clusters.getD (st.clusterMap.getD cand.j 0) []))).length := by
      rw [List.length_set]; exact hcj
    refine ⟨?_, getD_set_self _ _ _ _ hcjS, ?_⟩
    · rw [getD_set_of_ne _ _ _ (Ne.symm hne), getD_set_self _ _ _ _ hci]
    · intro c hcne1 hcne2
      rw [getD_set_of_ne _ _ _ (fun h => hcne2 h.symm),
        getD_set_of_ne _ _ _ (fun h => hcne1 h.symm)]
  · intro hsz
    rw [hstep, mergeClusters, if_neg (Nat.not_le.mpr hsz)]
    have hcjS : st.clusterMap.getD cand.j 0 <
        (st.clusters.set (st.clusterMap.getD cand.j 0)
          ((st.clusters.getD (st.clusterMap.getD cand.j 0) []) ++
           (st.clusters.getD (st.clusterMap.getD cand.i 0) []))).length := by
      rw [List.length_set]; exact hcj
    have hciS : st.clusterMap.getD cand.i 0 <
        (st.clusters.set (st.clusterMap.getD cand.j 0)
          ((st.clusters.getD (st.clusterMap.getD cand.j 0) []) ++
           (st.clusters.getD (st.clusterMap.getD cand.i 0) []))).length := by
      rw [List.length_set]; exact hci
    refine ⟨?_, getD_set_self _ _ _ _ hciS, ?_⟩
    · rw [getD_set_of_ne _ _ _ hne, getD_set_self _ _ _ _ hcj]
    · intro c hcne1 hcne2
      rw [getD_set_of_ne _ _ _ (fun h => hcne1 h.symm),
        getD_set_of_ne _ _ _ (fun h => hcne2 h.symm)]

/-- C8 witness: the membership characterization and the same-cluster skip
instantiated on a concrete matrix and state. -/
theorem c8_witness :
    ((⟨0, 1, JSVal.val 1⟩ : MergeCand) ∈
      buildMerges [[JSVal.val 1, JSVal.val 1], [JSVal.val 1, JSVal.val 1]] 1) ∧
    mergeStep 3 (initState 2) ⟨0, 0, JSVal.val 1⟩ = initState 2 := by
  have h := c8_merge_policy [[JSVal.val 1, JSVal.val 1], [JSVal.val 1, JSVal.val 1]] 1 3
  constructor
  · exact (h.1 0 1 (JSVal.val 1)).mpr
      ⟨by decide, by decide, by simp [jsGe], rfl⟩
  · exact (h.2.2.2 (initState 2) ⟨0, 0, JSVal.val 1⟩).1 rfl

/-! ## Configuration, labeling, result preparation (lines 549-668) -/

/-- Configuration record consumed by the worker. The `TextSimilarityConfig`
type itself lives in a component file not present here; the fields and their
types are taken from the service's uses of `config`. -/
structure Config where
  processingMethod : String
  similarityThreshold : ℚ
  maxClusterSize : ℕ
  samplePercentage : ℕ
  useClusterLabels : Bool
  apiKey : String
deriving DecidableEq

/-- Embeds `truncateText` (lines 635-638). -/
def truncateText (text : String) (maxLength : ℕ) : String :=
  if text.length ≤ maxLength then text else text.take maxLength ++ "..."

/-- Step of the `wordCounts` map update (lines 616-619): JS `Map.set`
preserves first-insertion key order and overwrites the count in place. -/
def countWord (counts : List (String × ℕ)) (word : String) : List (String × ℕ) :=
  if counts.any (fun p => p.1 == word)
  then counts.map (fun p => if p.1 == word then (p.1, p.2 + 1) else p)
  else counts ++ [(word, 1)]

/-- Embeds `generateFrequencyBasedLabel` (lines 607-632): lowercase, split on
whitespace, drop short words and stopwords, count, sort by count descending
(stable), take the top three. -/
def generateFrequencyBasedLabel (cluster : RawCluster) : String :=
  let allWords := cluster.texts.flatMap (fun text =>
    ((text.toLower.split (fun c => c.isWhitespace)).filter
      (fun w => 3 < w.length)).filter
      (fun w => !(["that", "this", "with", "from", "have", "what"].contains w)))
  let wordCounts := allWords.foldl countWord []
  let sortedWords :=
    ((wordCounts.mergeSort (fun a b => decide (b.2 ≤ a.2))).take 3).map (fun p => p.1)
  if sortedWords.isEmpty then "Cluster " ++ toString cluster.id
  else "[" ++ String.intercalate ", " sortedWords ++ "...]"

/-- A labeled cluster (the `label` field added by the labeling stage). -/
structure LabeledCluster where
  id : ℕ
  label : String
  texts : List String
  representativeText : String
deriving DecidableEq

/-- Embeds `generateClusterLabels` (lines 549-584). `labelSample` is the
external OpenAI labeling call. Modelled from the spec: the real external call
is missing from the source (lines 587-604 only simulate it with a stub that
cannot fail) and per the spec it is a fallible external capability; in the
source loop a rejected `await generateOpenAILabel(...)` propagates out of
`generateClusterLabels` — there is no `try`/`catch` around it — which the
`Except` monad renders. -/
def generateClusterLabels (cfg : Config)
    (labelSample : RawCluster → Except String String) (clusters : List RawCluster) :
    Except String (List LabeledCluster) :=
  clusters.mapM (fun cluster =>
    if cluster.texts.length = 1 then
      Except.ok ⟨cluster.id, truncateText (cluster.texts.headD "") 50,
        cluster.texts, cluster.representativeText⟩
    else if cfg.processingMethod == "openai" && cfg.useClusterLabels &&
        !(cfg.apiKey == "") then
      (labelSample cluster).map (fun label =>
        ⟨cluster.id, label, cluster.texts, cluster.representativeText⟩)
    else
      Except.ok ⟨cluster.id, generateFrequencyBasedLabel cluster,
        cluster.texts, cluster.representativeText⟩)

/-- Aggregate statistics of a run (lines 651-666). The two ratio/extremum
fields are `JSVal` because JS produces `NaN` (`0/0`) and `-Infinity`
(`Math.max()` of nothing) on an empty cluster list. -/
structure Stats where
  totalTexts : ℕ
  totalClusters : ℕ
  averageClusterSize : JSVal
  largestClusterSize : JSVal
  singletonCount : ℕ
deriving DecidableEq

/-- The terminal result object (lines 13-23 and 657-667). The text→cluster-id
mapping is a JS object rendered as an association list in key insertion
order. -/
structure ClusteringResult where
  clusters : List LabeledCluster
  mapping : List (String × ℕ)
  stats : Stats
deriving DecidableEq

/-- JS object property write `mapping[text] = cid` (line 647): overwrite when
the key exists, append otherwise. -/
def insertMapping (mapping : List (String × ℕ)) (text : String) (cid : ℕ) :
    List (String × ℕ) :=
  if mapping.any (fun p => p.1 == text)
  then mapping.map (fun p => if p.1 == text then (p.1, cid) else p)
  else mapping ++ [(text, cid)]

/-- JS object property read `mapping[text]`. -/
def mlookup (mapping : List (String × ℕ)) (text : String) : Option ℕ :=
  (mapping.find? (fun p => p.1 == text)).map (fun p => p.2)

/-- Embeds `Math.max(...clusters.map(c => c.texts.length))` (line 655),
including `Math.max()` of an empty spread being `-Infinity`. -/
def jsMaxLengths (clusters : List LabeledCluster) : JSVal :=
  clusters.foldl (fun acc c =>
    match acc with
    | JSVal.ninf => JSVal.val c.texts.length
    | JSVal.val q => JSVal.val (max q (c.texts.length : ℚ))
    | other => other) JSVal.ninf

/-- Embeds `prepareResult` (lines 641-668). -/
def prepareResult (labeledClusters : List LabeledCluster) : ClusteringResult :=
  let mapping := labeledClusters.foldl
    (fun acc cluster => cluster.texts.foldl
      (fun acc2 text => insertMapping acc2 text cluster.id) acc) []
  let totalTexts := (labeledClusters.map (fun c => c.texts.length)).sum
  let singletonCount := (labeledClusters.filter (fun c => c.texts.length == 1)).length
  { clusters := labeledClusters,
    mapping := mapping,
    stats := {
      totalTexts := totalTexts,
      totalClusters := labeledClusters.length,
      averageClusterSize := jsDiv (totalTexts : ℚ) (labeledClusters.length : ℚ),
      largestClusterSize := jsMaxLengths labeledClusters,
      singletonCount := singletonCount } }

/-! ## Corpus sampling (`processTexts`/`sampleTexts`, lines 129-138, 173-178) -/

/-- Embeds `sampleTexts` (lines 173-178); `shuffled` stands for the random
shuffle `[...texts].sort(() => 0.5 - Math.random())`, a permutation of
`texts` injected as an argument. -/
def sampleTexts (texts : List String) (sampleSize : ℕ) (shuffled : List String) :
    List String :=
  if texts.length ≤ sampleSize then texts
  else shuffled.take sampleSize

/-- Embeds the sampling step of `processTexts` (lines 129-138): below 100%,
forward a sample of `max(10, floor(len * pct / 100))` texts, otherwise the
corpus unchanged. -/
def textsToProcess (cfg : Config) (texts : List String) (shuffled : List String) :
    List String :=
  if cfg.samplePercentage < 100 then
    sampleTexts texts (max 10 (texts.length * cfg.samplePercentage / 100)) shuffled
  else texts

/-! ## Worker control flow (`self.onmessage`/`runClustering`, lines 208-271) -/

/-- A message posted by the worker to the main thread, at the granularity the
claims need: progress (tagged by stage), terminal result, terminal error. -/
inductive WorkerMsg where
  | progress (stage : String)
  | result (res : ClusteringResult)
  | error (msg : String)
deriving DecidableEq

/-- Embeds `runClustering` (lines 230-271) together with `onmessage`'s
`catch` (lines 217-223), at stage granularity. `cancelFlag c` is the value
the `cancelled` flag shows at the worker's `if (cancelled) return` check
number `c` (0: after embeddings, 1: after the similarity matrix, 2: after
clustering, 3: after labeling; the intra-stage `break`s flow into the next
such check). `embedOracle` injects the per-text embedding vector the
(simulated, random) embedding stage produces. Progress posts inside stage
loops are represented by the stage-entry `updateProgress` call. Returns the
posted messages plus whether some cancellation check observed the flag set. -/
def runClusteringAux (cancelFlag : ℕ → Bool) (embedOracle : String → List ℚ)
    (labelSample : RawCluster → Except String String) (cfg : Config)
    (texts : List String) : List WorkerMsg × Bool :=
  let m1 := [WorkerMsg.progress "modelLoading", WorkerMsg.progress "embedding"]
  let embeddings := texts.map embedOracle
  if cancelFlag 0 then (m1, true) else
  let m2 := m1 ++ [WorkerMsg.progress "similarity"]
  let matrix := computeSimilarityMatrix embeddings
  if cancelFlag 1 then (m2, true) else
  let m3 := m2 ++ [WorkerMsg.progress "clustering"]
  let clusters := performClustering texts matrix cfg.similarityThreshold cfg.maxClusterSize
  if cancelFlag 2 then (m3, true) else
  let m4 := m3 ++ [WorkerMsg.progress "labeling"]
  match generateClusterLabels cfg labelSample clusters with
  | Except.error e => (m4 ++ [WorkerMsg.error e], false)
  | Except.ok labeledClusters =>
    if cancelFlag 3 then (m4, true) else
    (m4 ++ [WorkerMsg.progress "complete",
      WorkerMsg.result (prepareResult labeledClusters)], false)

/-- The messages a worker run posts (first component of `runClusteringAux`). -/
def runClustering (cancelFlag : ℕ → Bool) (embedOracle : String → List ℚ)
    (labelSample : RawCluster → Except String String) (cfg : Config)
    (texts : List String) : List WorkerMsg :=
  (runClusteringAux cancelFlag embedOracle labelSample cfg texts).1

/-- C9: whenever some `if (cancelled) return` check observes the cancellation
flag set (second component of `runClusteringAux` is `true`), the worker run
terminates without a result message, without an error message, and without a
`complete` progress event. -/
theorem c9_cancellation (cancelFlag : ℕ → Bool) (embedOracle : String → List ℚ)
    (labelSample : RawCluster → Except String String) (cfg : Config)
    (texts : List String)
    (hobs : (runClusteringAux cancelFlag embedOracle labelSample cfg texts).2 = true) :
    (∀ r, WorkerMsg.result r ∉
      runClustering cancelFlag embedOracle labelSample cfg texts) ∧
    (∀ e, WorkerMsg.error e ∉
      runClustering cancelFlag embedOracle labelSample cfg texts) ∧
    WorkerMsg.progress "complete" ∉
      runClustering cancelFlag embedOracle labelSample cfg texts := by
  unfold runClustering
  unfold runClusteringAux at hobs ⊢
  by_cases f0 : cancelFlag 0 = true
  · simp [f0]
  · simp only [if_neg f0] at hobs ⊢
    by_cases f1 : cancelFlag 1 = true
    · simp [f1]
    · simp only [if_neg f1] at hobs ⊢
      by_cases f2 : cancelFlag 2 = true
      · simp [f2]
      · simp only [if_neg f2] at hobs ⊢
        rcases hgen : generateClusterLabels cfg labelSample
            (performClustering texts
              (computeSimilarityMatrix (texts.map embedOracle))
              cfg.similarityThreshold cfg.maxClusterSize) with e | lcs
        · rw [hgen] at hobs
          simp at hobs
        · rw [hgen] at hobs
          by_cases f3 : cancelFlag 3 = true
          · simp [f3]
          · simp only [if_neg f3] at hobs
            simp at hobs

/-- C9 witness: a run whose flag is set at the first check emits neither a
result nor an error nor a `complete` event. -/
theorem c9_witness :
    (runClusteringAux (fun _ => true) (fun _ => []) (fun _ => Except.ok "")
      ⟨"browser", 1, 5, 100, false, ""⟩ ["a"]).2 = true ∧
    ∀ r, WorkerMsg.result r ∉
      runClustering (fun _ => true) (fun _ => []) (fun _ => Except.ok "")
        ⟨"browser", 1, 5, 100, false, ""⟩ ["a"] :=
  ⟨rfl,
    (c9_cancellation (fun _ => true) (fun _ => []) (fun _ => Except.ok "")
      ⟨"browser", 1, 5, 100, false, ""⟩ ["a"] rfl).1⟩

/-- C2 (counterexample): with an empty corpus and an otherwise ordinary
configuration, the pipeline is not rejected: the worker emits progress
events and posts a `ClusteringResult` (with `NaN` average and `-Infinity`
largest size). No configuration validation exists in the code. -/
theorem c2_counterexample :
    WorkerMsg.progress "modelLoading" ∈
      runClustering (fun _ => false) (fun _ => []) (fun _ => Except.ok "")
        ⟨"openai", 1, 5, 100, false, ""⟩ [] ∧
    WorkerMsg.result (prepareResult []) ∈
      runClustering (fun _ => false) (fun _ => []) (fun _ => Except.ok "")
        ⟨"openai", 1, 5, 100, false, ""⟩ [] := by
  have hrun : runClustering (fun _ => false) (fun _ => []) (fun _ => Except.ok "")
      ⟨"openai", 1, 5, 100, false, ""⟩ [] =
      [WorkerMsg.progress "modelLoading", WorkerMsg.progress "embedding",
       WorkerMsg.progress "similarity", WorkerMsg.progress "clustering",
       WorkerMsg.progress "labeling", WorkerMsg.progress "complete",
       WorkerMsg.result (prepareResult [])] := by
    unfold runClustering runClusteringAux
    simp [computeSimilarityMatrix, performClustering, clusterIndices, buildMerges,
      sortMerges, initState, generateClusterLabels, List.mapM.loop, pure, Except.pure]
  rw [hrun]
  exact ⟨by simp, by simp⟩

/-- C2 (amended): the pipeline performs no configuration validation at all —
for any configuration (including an out-of-range threshold or a non-positive
cap) an empty corpus is processed through every stage: progress events are
emitted, no error is raised, and a `ClusteringResult` over zero texts is
posted. -/
theorem c2_amended (cfg : Config) (embedOracle : String → List ℚ)
    (labelSample : RawCluster → Except String String) :
    WorkerMsg.progress "modelLoading" ∈
      runClustering (fun _ => false) embedOracle labelSample cfg [] ∧
    WorkerMsg.result (prepareResult []) ∈
      runClustering (fun _ => false) embedOracle labelSample cfg [] ∧
    ∀ e, WorkerMsg.error e ∉
      runClustering (fun _ => false) embedOracle labelSample cfg [] := by
  have hrun : runClustering (fun _ => false) embedOracle labelSample cfg [] =
      [WorkerMsg.progress "modelLoading", WorkerMsg.progress "embedding",
       WorkerMsg.progress "similarity", WorkerMsg.progress "clustering",
       WorkerMsg.progress "labeling", WorkerMsg.progress "complete",
       WorkerMsg.result (prepareResult [])] := by
    unfold runClustering runClusteringAux
    simp [computeSimilarityMatrix, performClustering, clusterIndices, buildMerges,
      sortMerges, initState, generateClusterLabels, List.mapM.loop, pure, Except.pure]
  rw [hrun]
  exact ⟨by simp, by simp, by simp⟩

/-! ## Labeling-delegation failure (claim C3) -/

/-- In the `Except` monad, `mapM` fails as a whole when `f` fails on any list
element (the source's `for` loop has no `try`/`catch`, so the first rejected
`await` aborts `generateClusterLabels`). -/
lemma mapM_error_of_mem {α β : Type} (f : α → Except String β) (l : List α)
    (a : α) (ha : a ∈ l) (e : String) (hf : f a = Except.error e) :
    ∃ e2, l.mapM f = Except.error e2 := by
  induction l with
  | nil => cases ha
  | cons c rest ih =>
    rw [List.mapM_cons]
    rcases List.mem_cons.mp ha with rfl | hmem2
    · refine ⟨e, ?_⟩
      rw [hf]
      rfl
    · rcases hfc : f c with e3 | b
      · exact ⟨e3, rfl⟩
      · obtain ⟨e2, h2⟩ := ih hmem2
        refine ⟨e2, ?_⟩
        simp only [h2]
        rfl

/-- C3 (amended): in delegated labeling mode, a failing external labeling call
for a multi-member cluster is not caught: `generateClusterLabels` itself
fails, which the worker surfaces as a terminal error message — there is no
fallback to the frequency-based label and the run does not complete. -/
theorem c3_label_failure_aborts (cfg : Config)
    (labelSample : RawCluster → Except String String) (clusters : List RawCluster)
    (cluster : RawCluster) (e : String) (hmem : cluster ∈ clusters)
    (hmulti : ¬ cluster.texts.length = 1)
    (hmode : (cfg.processingMethod == "openai" && cfg.useClusterLabels &&
      !(cfg.apiKey == "")) = true)
    (hfail : labelSample cluster = Except.error e) :
    ∃ e2, generateClusterLabels cfg labelSample clusters = Except.error e2 := by
  unfold generateClusterLabels
  refine mapM_error_of_mem _ clusters cluster hmem e ?_
  rw [if_neg hmulti, if_pos hmode, hfail]
  rfl

/-- C3 witness: the amended statement at a concrete two-member cluster whose
delegated label call fails. -/
theorem c3_witness :
    ∃ e2, generateClusterLabels ⟨"openai", 1, 10, 100, true, "key"⟩
      (fun _ => Except.error "boom") [⟨0, ["x", "y"], "x"⟩] = Except.error e2 :=
  c3_label_failure_aborts ⟨"openai", 1, 10, 100, true, "key"⟩
    (fun _ => Except.error "boom") [⟨0, ["x", "y"], "x"⟩] ⟨0, ["x", "y"], "x"⟩ "boom"
    (by simp) (by simp) (by simp) rfl

/-- Square root of one, for `Rat.sqrt` which models `Math.sqrt`. -/
lemma rat_sqrt_one : Rat.sqrt 1 = 1 := by
  have h := Rat.sqrt_eq (1 : ℚ)
  rw [mul_one, abs_one] at h
  exact h

/-- C3 (counterexample): a concrete delegated-labeling run — two texts whose
injected embeddings are identical, so they merge into one two-member
cluster — whose external labeling call fails: the worker posts a terminal
error message and no result; the claimed frequency-based fallback and run
completion do not happen. -/
theorem c3_counterexample :
    runClustering (fun _ => false) (fun _ => [1]) (fun _ => Except.error "API failure")
      ⟨"openai", 1, 10, 100, true, "key"⟩ ["aa", "bb"] =
      [WorkerMsg.progress "modelLoading", WorkerMsg.progress "embedding",
       WorkerMsg.progress "similarity", WorkerMsg.progress "clustering",
       WorkerMsg.progress "labeling", WorkerMsg.error "API failure"] := by
  have hcos : cosineSimilarity [1] [1] = JSVal.val 1 := by
    unfold cosineSimilarity jsDiv
    norm_num [rat_sqrt_one]
  have hmat : computeSimilarityMatrix [[1], [1]] =
      [[JSVal.val 1, JSVal.val 1], [JSVal.val 1, JSVal.val 1]] := by
    simp [computeSimilarityMatrix, List.range_succ, hcos]
  have hbm : buildMerges [[JSVal.val 1, JSVal.val 1], [JSVal.val 1, JSVal.val 1]] 1 =
      [⟨0, 1, JSVal.val 1⟩] := by
    simp [buildMerges, List.range_succ, List.range', jsGe]
  have hsort : sortMerges [(⟨0, 1, JSVal.val 1⟩ : MergeCand)] = [⟨0, 1, JSVal.val 1⟩] := by
    simp [sortMerges]
  have hstep : mergeStep 10 (initState 2) ⟨0, 1, JSVal.val 1⟩ =
      ⟨[[0, 1], []], [0, 0]⟩ := by
    simp [mergeStep, mergeClusters, initState, List.range_succ]
  have hclusters : performClustering ["aa", "bb"]
      [[JSVal.val 1, JSVal.val 1], [JSVal.val 1, JSVal.val 1]] 1 10 =
      [⟨0, ["aa", "bb"], "aa"⟩] := by
    unfold performClustering clusterIndices
    rw [hbm, hsort]
    simp only [List.foldl_cons, List.foldl_nil]
    rw [show (initState [[JSVal.val 1, JSVal.val 1], [JSVal.val 1, JSVal.val 1]].length) =
      initState 2 from rfl, hstep]
    simp [List.enum]
  have hlab : generateClusterLabels ⟨"openai", 1, 10, 100, true, "key"⟩
      (fun _ => Except.error "API failure") [⟨0, ["aa", "bb"], "aa"⟩] =
      Except.error "API failure" := by
    unfold generateClusterLabels
    rw [List.mapM_cons]
    simp [Except.map, bind, Except.bind]
  unfold runClustering runClusteringAux
  simp only [Bool.false_eq_true, if_false]
  rw [show List.map (fun _ => ([1] : List ℚ)) ["aa", "bb"] = [[1], [1]] from rfl, hmat]
  rw [hclusters, hlab]
  rfl

/-! ## Sampling (claim C7) -/

/-- C7: for a non-empty corpus and any shuffle (a permutation of the corpus),
(i) below 100% the number of forwarded texts is exactly
`min(len, max(10, floor(len * pct / 100)))` — so never below 10 unless the
corpus itself is smaller; (ii) at 100% the corpus is forwarded unchanged;
(iii) the forwarded texts are a sub-multiset of the corpus (each sampled text
is a corpus element, drawn without replacement). -/
theorem c7_sampling (cfg : Config) (texts shuffled : List String)
    (hne : texts ≠ []) (hperm : shuffled.Perm texts) :
    (cfg.samplePercentage < 100 →
      (textsToProcess cfg texts shuffled).length =
        min texts.length (max 10 (texts.length * cfg.samplePercentage / 100))) ∧
    (cfg.samplePercentage = 100 → textsToProcess cfg texts shuffled = texts) ∧
    (textsToProcess cfg texts shuffled).Subperm texts := by
  have hlen : shuffled.length = texts.length := hperm.length_eq
  refine ⟨?_, ?_, ?_⟩
  · intro hlt
    rw [textsToProcess, if_pos hlt, sampleTexts]
    by_cases hsz : texts.length ≤ max 10 (texts.length * cfg.samplePercentage / 100)
    · rw [if_pos hsz]
      omega
    · rw [if_neg hsz, List.length_take, hlen]
      omega
  · intro h100
    rw [textsToProcess, h100]
    simp
  · rw [textsToProcess]
    by_cases hlt : cfg.samplePercentage < 100
    · rw [if_pos hlt, sampleTexts]
      by_cases hsz : texts.length ≤ max 10 (texts.length * cfg.samplePercentage / 100)
      · rw [if_pos hsz]
      · rw [if_neg hsz]
        exact List.Subperm.trans (List.take_sublist _ _).subperm hperm.subperm
    · rw [if_neg hlt]

/-- C7 witness: a 12-item corpus sampled at 25% forwards
`min(12, max(10, 3)) = 10` texts, a sub-multiset of the corpus. -/
theorem c7_witness :
    (textsToProcess ⟨"browser", 1, 5, 25, false, ""⟩
        ["a", "b", "c", "d", "e", "f", "g", "h", "i", "j", "k", "l"]
        ["a", "b", "c", "d", "e", "f", "g", "h", "i", "j", "k", "l"]).length =
      min 12 (max 10 (12 * 25 / 100)) ∧
    (textsToProcess ⟨"browser", 1, 5, 25, false, ""⟩
        ["a", "b", "c", "d", "e", "f", "g", "h", "i", "j", "k", "l"]
        ["a", "b", "c", "d", "e", "f", "g", "h", "i", "j", "k", "l"]).Subperm
      ["a", "b", "c", "d", "e", "f", "g", "h", "i", "j", "k", "l"] := by
  have h := c7_sampling ⟨"browser", 1, 5, 25, false, ""⟩
    ["a", "b", "c", "d", "e", "f", "g", "h", "i", "j", "k", "l"]
    ["a", "b", "c", "d", "e", "f", "g", "h", "i", "j", "k", "l"]
    (by simp) (List.Perm.refl _)
  exact ⟨h.1 (by decide), h.2.2⟩

/-! ## The result mapping (claim C10) -/

/-- Head-unfolding of `List.find?` as an `if`. -/
lemma find?_cons_eq {α : Type} (p : α → Bool) (a : α) (l : List α) :
    List.find? p (a :: l) = if p a = true then some a else List.find? p l := by
  by_cases h : p a = true
  · rw [List.find?_cons_of_pos _ h, if_pos h]
  · rw [List.find?_cons_of_neg _ h, if_neg h]

/-- Overwriting every entry holding `t0` reaches the first `t0` entry the
object lookup finds. -/
lemma mlookup_overwrite_self (mapping : List (String × ℕ)) (t0 : String) (cid : ℕ)
    (hin : mapping.any (fun p => p.1 == t0) = true) :
    mlookup (mapping.map (fun p => if p.1 == t0 then (p.1, cid) else p)) t0 = some cid := by
  induction mapping with
  | nil => cases hin
  | cons q rest ih =>
    simp only [List.map_cons]
    by_cases hq : (q.1 == t0) = true
    · rw [if_pos hq, mlookup, find?_cons_eq, if_pos (show ((q.1, cid).1 == t0) = true from hq)]
      rfl
    · have hin2 : rest.any (fun p => p.1 == t0) = true := by
        rcases List.any_eq_true.mp hin with ⟨p, hp, hpt⟩
        rcases List.mem_cons.mp hp with rfl | hp2
        · exact absurd hpt hq
        · exact List.any_eq_true.mpr ⟨p, hp2, hpt⟩
      rw [if_neg hq, mlookup, find?_cons_eq, if_neg hq]
      exact ih hin2

/-- Overwriting `t0` entries does not disturb the lookup of another key. -/
lemma mlookup_overwrite_ne (mapping : List (String × ℕ)) (t0 text : String) (cid : ℕ)
    (hne : (t0 == text) = false) :
    mlookup (mapping.map (fun p => if p.1 == t0 then (p.1, cid) else p)) text =
      mlookup mapping text := by
  induction mapping with
  | nil => rfl
  | cons q rest ih =>
    simp only [List.map_cons]
    by_cases hq : (q.1 == t0) = true
    · have hq1 : q.1 = t0 := by simpa using hq
      have hq' : (q.1 == text) = false := by
        rw [hq1]
        exact hne
      rw [if_pos hq, mlookup, find?_cons_eq,
        if_neg (show ¬((q.1, cid).1 == text) = true from by simp [hq']),
        mlookup, find?_cons_eq, if_neg (show ¬(q.1 == text) = true from by simp [hq'])]
      exact ih
    · rw [if_neg hq]
      by_cases hqt : (q.1 == text) = true
      · rw [mlookup, find?_cons_eq, if_pos hqt, mlookup, find?_cons_eq, if_pos hqt]
      · rw [mlookup, find?_cons_eq, if_neg hqt, mlookup, find?_cons_eq, if_neg hqt]
        exact ih

/-- A key absent from the list looks up to `none`. -/
lemma mlookup_eq_none_of_not_any (mapping : List (String × ℕ)) (text : String)
    (hnot : mapping.any (fun p => p.1 == text) = false) :
    mlookup mapping text = none := by
  have hfind : List.find? (fun p => p.1 == text) mapping = none := by
    rw [List.find?_eq_none]
    intro p hp hpt
    rw [List.any_eq_false] at hnot
    exact hnot p hp hpt
  rw [mlookup, hfind, Option.map_none']

/-- Lookup after a single JS object write: the written key reads back the
written value, other keys are untouched. -/
lemma mlookup_insertMapping (mapping : List (String × ℕ)) (t0 text : String) (cid : ℕ) :
    mlookup (insertMapping mapping t0 cid) text =
      if (t0 == text) = true then some cid else mlookup mapping text := by
  by_cases ht : (t0 == text) = true
  · rw [if_pos ht]
    have ht' : t0 = text := by simpa using ht
    subst ht'
    by_cases hin : mapping.any (fun p => p.1 == t0) = true
    · rw [insertMapping, if_pos hin]
      exact mlookup_overwrite_self mapping t0 cid hin
    · have hnone : List.find? (fun p => p.1 == t0) mapping = none := by
        have h1 := mlookup_eq_none_of_not_any mapping t0 (Bool.eq_false_iff.mpr hin)
        rw [mlookup] at h1
        rcases hf : List.find? (fun p => p.1 == t0) mapping with _ | p
        · exact hf
        · rw [hf] at h1
          cases h1
      rw [insertMapping, if_neg hin, mlookup, List.find?_append, hnone, Option.none_or,
        find?_cons_eq, if_pos (show ((t0, cid).1 == t0) = true from by simp)]
      rfl
  · rw [if_neg ht]
    have ht' : (t0 == text) = false := Bool.eq_false_iff.mpr ht
    by_cases hin : mapping.any (fun p => p.1 == t0) = true
    · rw [insertMapping, if_pos hin]
      exact mlookup_overwrite_ne mapping t0 text cid ht'
    · rw [insertMapping, if_neg hin, mlookup, List.find?_append,
        show List.find? (fun p => p.1 == text) [(t0, cid)] = none from by
          rw [find?_cons_eq, if_neg (show ¬((t0, cid).1 == text) = true from by simp [ht'])]
          rfl,
        Option.or_none]
      rfl

/-- Lookup after writing one cluster's texts: a text of the cluster reads the
cluster's id, anything else is untouched. -/
lemma mlookup_cluster_write (ws : List String) (cid : ℕ) (m : List (String × ℕ))
    (text : String) :
    mlookup (ws.foldl (fun acc t0 => insertMapping acc t0 cid) m) text =
      if text ∈ ws then some cid else mlookup m text := by
  induction ws generalizing m with
  | nil => rw [List.foldl_nil, if_neg (List.not_mem_nil text)]
  | cons w rest ih =>
    rw [List.foldl_cons, ih (insertMapping m w cid), mlookup_insertMapping]
    by_cases hw : w = text
    · subst hw
      by_cases hr : w ∈ rest
      · rw [if_pos hr, if_pos (List.mem_cons_of_mem w hr)]
      · rw [if_neg hr, if_pos (show (w == w) = true from by simp),
          if_pos (List.mem_cons_self w rest)]
    · by_cases hr : text ∈ rest
      · rw [if_pos hr, if_pos (List.mem_cons_of_mem w hr)]
      · rw [if_neg hr, if_neg (show ¬(w == text) = true from by simpa using hw),
          if_neg (by
            intro hmem
            rcases List.mem_cons.mp hmem with h | h
            · exact hw h.symm
            · exact hr h)]

/-- Lookup in the fully built mapping: the last write wins, i.e. a text reads
the id of the last cluster (in list order) containing it; texts in no cluster
fall through to the accumulator. -/
lemma mlookup_prepare (clusters : List LabeledCluster) (m : List (String × ℕ))
    (text : String) :
    mlookup (clusters.foldl (fun acc cluster => cluster.texts.foldl
      (fun acc2 t0 => insertMapping acc2 t0 cluster.id) acc) m) text =
      (((clusters.filter (fun c => decide (text ∈ c.texts))).getLast?).map
        (fun c => c.id)).or (mlookup m text) := by
  induction clusters generalizing m with
  | nil => simp
  | cons c rest ih =>
    rw [List.foldl_cons, ih, mlookup_cluster_write, List.filter_cons]
    by_cases hc : text ∈ c.texts
    · rw [if_pos hc, if_pos (show (decide (text ∈ c.texts)) = true from by simpa using hc)]
      rcases hrf : rest.filter (fun c2 => decide (text ∈ c2.texts)) with _ | ⟨r, rr⟩
      · simp [hrf]
      · rw [hrf, List.getLast?_cons_cons]
        obtain ⟨y, hy⟩ : ∃ y, (r :: rr).getLast? = some y := by
          rcases h' : (r :: rr).getLast? with _ | y
          · exact absurd (List.getLast?_eq_none_iff.mp h') (by simp)
          · exact ⟨y, rfl⟩
        rw [hy]
        rfl
    · rw [if_neg hc, if_neg (show ¬(decide (text ∈ c.texts)) = true from by simpa using hc)]

/-- C10: `prepareResult`'s mapping is keyed by text string: for every text,
the lookup returns the id of the last cluster in final list order containing
that text (`none` if no cluster does) — later clusters overwrite earlier
assignments — and on a concrete pair of clusters sharing a text the mapping
has fewer entries (2) than `stats.totalTexts` (3), with the shared text
assigned the last cluster's id. -/
theorem c10_mapping :
    (∀ (clusters : List LabeledCluster) (text : String),
      mlookup (prepareResult clusters).mapping text =
        ((clusters.filter (fun c => decide (text ∈ c.texts))).getLast?).map
          (fun c => c.id)) ∧
    (prepareResult [⟨0, "a", ["x", "y"], "x"⟩, ⟨1, "b", ["x"], "x"⟩]).stats.totalTexts = 3 ∧
    (prepareResult [⟨0, "a", ["x", "y"], "x"⟩, ⟨1, "b", ["x"], "x"⟩]).mapping.length = 2 ∧
    mlookup (prepareResult [⟨0, "a", ["x", "y"], "x"⟩, ⟨1, "b", ["x"], "x"⟩]).mapping "x" =
      some 1 := by
  refine ⟨?_, rfl, rfl, rfl⟩
  intro clusters text
  have hm : (prepareResult clusters).mapping = clusters.foldl (fun acc cluster =>
      cluster.texts.foldl (fun acc2 t0 => insertMapping acc2 t0 cluster.id) acc) [] := rfl
  rw [hm, mlookup_prepare, show mlookup [] text = none from rfl, Option.or_none]

end CsdsPre
